import Mathlib

/-!
Verification development for the `batc` compiler (`src/lexer.py`, `src/parser.py`,
`src/main.py`).  The definitions below are a shallow embedding of the semantic
core of `src/parser.py`: the type lattice and its implicit-cast judgment, the
declaration pass over the scope graph, and the destination-directed code
generator with its scoped register allocator.  Python exceptions are modelled
with `Except`; the mutable register pool and the mutable scope arena are
threaded explicitly as state that survives errors (a raised exception in Python
leaves the mutated objects in place, and `with` blocks still run `__exit__`).
-/

set_option autoImplicit false

namespace Batc

/-! ### Memory layout constants (`src/parser.py` lines 14-19) -/

def BASE_POINTER_REG : Nat := 7

def STACK_POINTER_REG : Nat := 6

def HEAP_END : Int := 128

def STATIC_MEMORY_SIZE : Int := 64

def STACK_END : Int := HEAP_END + STATIC_MEMORY_SIZE

/-! ### Errors

Python exception kinds raised by `src/parser.py`.  `attributeError` models an
attribute lookup that fails because the attribute does not exist on the object
(e.g. `self.warn`); `indexError` models an out-of-range list subscript. -/

inductive Err where
  | valueError (msg : String)
  | notImplementedError (what : String)
  | indexError
  | attributeError (attr : String)
  deriving DecidableEq, Repr

/-! ### Output helpers (`src/parser.py` lines 21-43)

`repr_offset` raises `ValueError` outside the signed 6-bit range, exactly as in
the source.  (`repr_temp_label`, which would use the wall clock, is defined in
the source but never called by any `compile` method, so it has no counterpart
here.) -/

def repr_immediate (x : Int) : String := s!"#{x}"

def repr_register (x : Nat) : String := s!"r{x}"

def repr_offset (x : Int) : Except Err String :=
  if x < -32 ∨ x > 31 then .error (.valueError s!"Offset {x} out of range")
  else .ok (repr_immediate x)

def repr_user_label (x : String) : String := s!".user_{x}"

def repr_batc_label (x : String) : String := s!".batc_{x}"

/-! ### Destinations (`src/parser.py` lines 46-83)

The source has three concrete destination classes.  `RegisterOffsetDestination`
subclasses `MemoryDestination`; every `isinstance` test in the source checks the
subclass first, so an ordered `match` over this inductive is faithful. -/

inductive Dest where
  | register (register : Nat)
  | memory (address : Int)
  | regOffset (register : Nat) (offset : Int)
  deriving DecidableEq, Repr

/-- `Destination.load_from_register` (lines 47-48 and 79-80): only
`RegisterOffsetDestination` implements it, the base class raises
`NotImplementedError`. -/
def Dest.load_from_register (d : Dest) (reg : Nat) : Except Err String :=
  match d with
  | .regOffset rb off =>
      (repr_offset off).map fun o =>
        s!"mst {repr_register rb}, {o}, {repr_register reg}"
  | .register _ => .error (.notImplementedError "Destination")
  | .memory _ => .error (.notImplementedError "Destination")

/-! ### Types (`src/parser.py` lines 399-443)

The classes actually constructed by the compiler are `VoidType`, `I8Type`,
`U8Type`, `CharType`, `BoolType` and `PointerType`; the abstract bases
(`Type`, `PrimitiveType`, `IntegerType`) are never instantiated.  An
`IntegerType` carries an optional known constant value; `__eq__` is
`isinstance`-based and therefore ignores that value. -/

inductive Ty where
  | void
  | i8 (value : Option Int)
  | u8 (value : Option Int)
  | char
  | bool
  | ptr (ty : Ty)
  deriving DecidableEq, Repr

/-- `Type.__eq__` / `PointerType.__eq__` (lines 403-404 and 442-443): same
variant, with pointer element types compared recursively; known constant
values do not participate. -/
def Ty.eq : Ty → Ty → Bool
  | .void, .void => true
  | .i8 _, .i8 _ => true
  | .u8 _, .u8 _ => true
  | .char, .char => true
  | .bool, .bool => true
  | .ptr a, .ptr b => Ty.eq a b
  | _, _ => false

/-- `isinstance(other, U8Type)` -/
def Ty.isU8 : Ty → Bool
  | .u8 _ => true
  | _ => false

/-- `isinstance(other, I8Type)` -/
def Ty.isI8 : Ty → Bool
  | .i8 _ => true
  | _ => false

/-- `Type.can_be_implicitly_casted_to` with the `IntegerType` override
(lines 400-401 and 416-424): a known-constant integer converts to `u8` when the
value is in `[0, 255]`, to `i8` when it is in `[-128, 127]`, and otherwise the
judgment falls back to `__eq__`. -/
def can_be_implicitly_casted_to : Ty → Ty → Bool
  | .i8 (some v), other =>
      (other.isU8 && decide (0 ≤ v) && decide (v ≤ 255)) ||
      (other.isI8 && decide (-128 ≤ v) && decide (v ≤ 127)) ||
      Ty.eq (.i8 (some v)) other
  | .u8 (some v), other =>
      (other.isU8 && decide (0 ≤ v) && decide (v ≤ 255)) ||
      (other.isI8 && decide (-128 ≤ v) && decide (v ≤ 127)) ||
      Ty.eq (.u8 (some v)) other
  | a, other => Ty.eq a other

/-- The known constant value carried by an integer-literal type. -/
def Ty.knownValue : Ty → Option Int
  | .i8 v => v
  | .u8 v => v
  | _ => none

/-- Modelled from the spec's wording of the identity case: "a type implicitly
casts to itself (identity, with pointer types compared by recursively equal
pointee types)".  Stated separately from `Ty.eq` so the source judgment can be
compared against the claim. -/
def specIdentity : Ty → Ty → Bool
  | .void, .void => true
  | .i8 _, .i8 _ => true
  | .u8 _, .u8 _ => true
  | .char, .char => true
  | .bool, .bool => true
  | .ptr a, .ptr b => specIdentity a b
  | _, _ => false

/-! ### `IntLiteral.check` (`src/parser.py` lines 659-662)

For a value that does not fit in 8 bits the source calls `self.warn(...)`.
No `warn` method is defined anywhere in the repository (neither on `Node`,
`Expression`, `Literal` nor `IntLiteral`), so in Python that call raises
`AttributeError` before the masking line `self.value &= 0xFF` can run. -/

def IntLiteral.check (value : Int) : Except Err Int :=
  if Int.land value 0xFF ≠ value then .error (.attributeError "warn")
  else .ok value

/-! ### Abstract syntax

The expression and statement grammars of `src/parser.py`.  Lists of arguments
and statements are represented by the companion inductives `ExprList` and
`StmtList` so that all recursions are structural.  An `If`'s optional else
branch is either absent, a block, or a nested `If` (grammar lines 349-359). -/

mutual

inductive Expr where
  | intLit (value : Int)
  | strLit (value : String)
  | charLit (value : Char)
  | ident (name : String)
  | call (name : String) (args : ExprList)
  | deref (expr : Expr)
  | eqeq (left right : Expr)
  deriving DecidableEq, Repr

inductive ExprList where
  | nil
  | cons (head : Expr) (tail : ExprList)
  deriving DecidableEq, Repr

end

def ExprList.length : ExprList → Nat
  | .nil => 0
  | .cons _ tl => tl.length + 1

mutual

inductive Stmt where
  | varDecl (name : String) (ty : Ty) (value : Option Expr)
  | exprStmt (e : Expr)
  | ifStmt (i : IfNode)
  | blockStmt (b : Block)
  deriving DecidableEq, Repr

inductive IfNode where
  | mk (condition : Expr) (then_body : Block) (else_body : ElsePart)
  deriving DecidableEq, Repr

inductive ElsePart where
  | none
  | block (b : Block)
  | elseIf (i : IfNode)
  deriving DecidableEq, Repr

inductive Block where
  | mk (statements : StmtList)
  deriving DecidableEq, Repr

inductive StmtList where
  | nil
  | cons (head : Stmt) (tail : StmtList)
  deriving DecidableEq, Repr

end

inductive TopLevel where
  | varDecl (name : String) (ty : Ty) (value : Option Expr)
  | func (name : String) (params : List (String × Ty)) (return_type : Ty) (body : Block)
  deriving DecidableEq, Repr

def TopLevel.name : TopLevel → String
  | .varDecl n _ _ => n
  | .func n _ _ _ => n

/-! ### The register pool and the emit pass

`Scope.alloc_register` (lines 102-109) pops a register from the root scope's
free set `{r2..r5}` and `RegisterDestination.__exit__` (lines 67-68) returns it
on leaving the `with` block, **also when an exception escapes the block**.
The Python set is modelled as a list of free registers; `set.pop()` removes an
unspecified element, here fixed to the head — no claim depends on which
register is chosen.  Every emit function maps a pool to a result together with
the pool left behind (errors carry the pool too, since a Python exception does
not undo mutations).

The caller's scope chain is abstracted as the lookup function
`env : String → Option Dest`, the result of `Scope.get_var_address`
(`none` models "Symbol not declared").

Emitted code is a list of instruction lines; the source builds one
newline-joined string, which concatenates the very same lines. -/

abbrev Pool := List Nat

abbrev Env := String → Option Dest

/-- `Expression.compile_into` — the dispatch over the expression classes.
Only `IntLiteral` (lines 664-677) and `Ident` (lines 543-557) implement it;
every other class inherits `Expression.compile_into` (lines 474-475), which
raises `NotImplementedError(self.__class__.__name__)`.  In the `Ident` case
note that the source interpolates the whole `RegisterOffsetDestination` repr
(`"r7, #k"`) followed by an extra `repr_offset(0)`, producing a four-operand
`mld` line; this is reproduced verbatim. -/
def compile_into (env : Env) : Expr → Dest → Pool → Except Err (List String) × Pool
  | .intLit v, .regOffset rb off, pool =>
      match pool with
      | [] => (.error (.valueError "Out of registers"), [])
      | r :: rest =>
          match repr_offset off with
          | .error e => (.error e, r :: rest)
          | .ok o =>
              (.ok [s!"ldi {repr_register r}, {repr_immediate v}",
                    s!"mst {repr_register rb}, {o}, {repr_register r}"],
               r :: rest)
  | .intLit v, .memory addr, pool =>
      match pool with
      | [] => (.error (.valueError "Out of registers"), [])
      | rv :: rest =>
          match rest with
          | [] => (.error (.valueError "Out of registers"), rv :: [])
          | ra :: rest2 =>
              (.ok [s!"ldi {repr_register rv}, {repr_immediate v}",
                    s!"ldi {repr_register ra}, {repr_immediate addr}",
                    s!"mst {repr_register ra}, #0, {repr_register rv}"],
               rv :: ra :: rest2)
  | .intLit v, .register r, pool =>
      (.ok [s!"ldi {repr_register r}, {repr_immediate v}"], pool)
  | .ident name, .regOffset rb off, pool =>
      match env name with
      | Option.none => (.error (.valueError s!"Symbol {name} not declared"), pool)
      | Option.some (.regOffset vr voff) =>
          match pool with
          | [] => (.error (.valueError "Out of registers"), [])
          | r :: rest =>
              match repr_offset voff with
              | .error e => (.error e, r :: rest)
              | .ok vo =>
                  match repr_offset off with
                  | .error e => (.error e, r :: rest)
                  | .ok o =>
                      (.ok [s!"mld {repr_register r}, {repr_register vr}, {vo}, #0",
                            s!"mst {repr_register rb}, {o}, {repr_register r}"],
                       r :: rest)
      | Option.some (.memory addr) =>
          match pool with
          | [] => (.error (.valueError "Out of registers"), [])
          | r :: rest =>
              match repr_offset off with
              | .error e => (.error e, r :: rest)
              | .ok o =>
                  (.ok [s!"ldi {repr_register r}, {repr_immediate addr}",
                        s!"mld {repr_register r}, {repr_register r}, #0",
                        s!"mst {repr_register rb}, {o}, {repr_register r}"],
                   r :: rest)
      | Option.some (.register _) =>
          (.error (.notImplementedError "Ident: var address"), pool)
  | .ident _, .register _, pool => (.error (.notImplementedError "Ident"), pool)
  | .ident _, .memory _, pool => (.error (.notImplementedError "Ident"), pool)
  | .call _ _, _, pool => (.error (.notImplementedError "Call"), pool)
  | .deref _, _, pool => (.error (.notImplementedError "Deref"), pool)
  | .eqeq _ _, _, pool => (.error (.notImplementedError "EqEq"), pool)
  | .strLit _, _, pool => (.error (.notImplementedError "StringLiteral"), pool)
  | .charLit _, _, pool => (.error (.notImplementedError "CharLiteral"), pool)

/-- The `for i, arg in enumerate(self.args)` loop of `Call.compile`
(lines 624-625): each argument is lowered into `RegisterOffsetDestination(r6, i)`
and the emitted lines are appended in source order. -/
def compile_args (env : Env) : ExprList → Nat → Pool → Except Err (List String) × Pool
  | .nil, _, pool => (.ok [], pool)
  | .cons a rest, i, pool =>
      match compile_into env a (.regOffset STACK_POINTER_REG (i : Int)) pool with
      | (.error e, p') => (.error e, p')
      | (.ok l, p') =>
          match compile_args env rest (i + 1) p' with
          | (.error e, p'') => (.error e, p'')
          | (.ok ls, p'') => (.ok (l ++ ls), p'')

/-- Python `self.args[1].value`: the attribute exists on the three literal
classes and on no other expression class; the f-string renders it with `str`. -/
def Expr.valueAttr : Expr → Except Err String
  | .intLit v => .ok (toString v)
  | .strLit s => .ok s
  | .charLit c => .ok (String.mk [c])
  | _ => .error (.attributeError "value")

/-- `Call.compile` (lines 587-632).  The three branches:

* `write_port`: requires `args[0]` to be an `IntLiteral`, allocates a register
  `reg_port`, lowers **`args[0]` (the port)** into it and emits
  `pst reg_port, #args[1].value` — i.e. the port ends up in the register and
  the *value* becomes the immediate (lines 588-600).
* `read_port`: same literal test, lowers `args[0]` into the register, then
  reads `self.args[1]` — out of range for the one-argument builtin, an
  `IndexError` (lines 601-613).
* any other name: the full calling convention (lines 615-632), all inside one
  `with alloc_register() as old_base` block. -/
def Call.compile (env : Env) (name : String) (args : ExprList) (pool : Pool) :
    Except Err (List String) × Pool :=
  if name = "write_port" then
    match args with
    | .nil => (.error .indexError, pool)
    | .cons a0 rest =>
        match a0 with
        | .intLit p =>
            (match pool with
             | [] => (.error (.valueError "Out of registers"), [])
             | r :: prest =>
                 match rest with
                 | .nil => (.error .indexError, r :: prest)
                 | .cons a1 _ =>
                     match a1.valueAttr with
                     | .error e => (.error e, r :: prest)
                     | .ok val =>
                         (.ok [s!"ldi {repr_register r}, {repr_immediate p}",
                               s!"pst {repr_register r}, #{val}"],
                          r :: prest))
        | _ => (.error (.valueError "Port argument must be a literal"), pool)
  else if name = "read_port" then
    match args with
    | .nil => (.error .indexError, pool)
    | .cons a0 rest =>
        match a0 with
        | .intLit p =>
            (match pool with
             | [] => (.error (.valueError "Out of registers"), [])
             | r :: prest =>
                 match rest with
                 | .nil => (.error .indexError, r :: prest)
                 | .cons a1 _ =>
                     match a1.valueAttr with
                     | .error e => (.error e, r :: prest)
                     | .ok val =>
                         (.ok [s!"ldi {repr_register r}, {repr_immediate p}",
                               s!"pld {repr_register r}, #{val}"],
                          r :: prest))
        | _ => (.error (.valueError "Port argument must be a literal"), pool)
  else
    match pool with
    | [] => (.error (.valueError "Out of registers"), [])
    | old_base :: rest =>
        let n : Nat := args.length
        match repr_offset (n : Int) with
        | .error e => (.error e, old_base :: rest)
        | .ok offN =>
            match compile_args env args 0 rest with
            | (.error e, p') => (.error e, old_base :: p')
            | (.ok argLines, p') =>
                (.ok ([s!"mov {repr_register old_base}, {repr_register BASE_POINTER_REG}",
                       s!"mov {repr_register BASE_POINTER_REG}, {repr_register STACK_POINTER_REG}",
                       s!"adi {repr_register STACK_POINTER_REG}, {repr_immediate (-((n : Int) + 1))}",
                       s!"cmp {repr_register STACK_POINTER_REG}, {repr_immediate STACK_END}",
                       "jmp less " ++ repr_batc_label "stack_overflow",
                       s!"mst {repr_register STACK_POINTER_REG}, {offN}, {repr_register old_base}"] ++
                      argLines ++
                      [s!"cal {repr_user_label name}",
                       s!"mld {repr_register BASE_POINTER_REG}, {repr_register STACK_POINTER_REG}, {offN}",
                       s!"adi {repr_register STACK_POINTER_REG}, {repr_immediate ((n : Int) + 1)}"]),
                 old_base :: p')

/-- `Var.compile` (lines 383-387): no initializer emits nothing; otherwise the
initializer is lowered into the variable's storage location. -/
def Var.compile (env : Env) (name : String) (value : Option Expr) (pool : Pool) :
    Except Err (List String) × Pool :=
  match value with
  | Option.none => (.ok [], pool)
  | Option.some v =>
      match env name with
      | Option.none => (.error (.valueError s!"Symbol {name} not declared"), pool)
      | Option.some addr => compile_into env v addr pool

/-! `Node.compile` dispatch for statements.  `Block.compile` (lines 317-318)
joins its statements' emissions in order.  `If` defines **no** `compile`
method, so `Node.compile` (lines 172-173) raises `NotImplementedError("If")`.
A bare expression statement only compiles when it is a `Call` (lines 587-632);
every other expression class lacks a `compile` method as well. -/

mutual

def Stmt.compile (env : Env) : Stmt → Pool → Except Err (List String) × Pool
  | .varDecl name _ value, pool => Var.compile env name value pool
  | .exprStmt e, pool =>
      match e with
      | .call n args => Call.compile env n args pool
      | .intLit _ => (.error (.notImplementedError "IntLiteral"), pool)
      | .strLit _ => (.error (.notImplementedError "StringLiteral"), pool)
      | .charLit _ => (.error (.notImplementedError "CharLiteral"), pool)
      | .ident _ => (.error (.notImplementedError "Ident"), pool)
      | .deref _ => (.error (.notImplementedError "Deref"), pool)
      | .eqeq _ _ => (.error (.notImplementedError "EqEq"), pool)
  | .ifStmt _, pool => (.error (.notImplementedError "If"), pool)
  | .blockStmt b, pool => Block.compile env b pool

def Block.compile (env : Env) : Block → Pool → Except Err (List String) × Pool
  | .mk stmts, pool => StmtList.compile env stmts pool

def StmtList.compile (env : Env) : StmtList → Pool → Except Err (List String) × Pool
  | .nil, pool => (.ok [], pool)
  | .cons s rest, pool =>
      match Stmt.compile env s pool with
      | (.error e, p') => (.error e, p')
      | (.ok l, p') =>
          match StmtList.compile env rest p' with
          | (.error e, p'') => (.error e, p'')
          | (.ok ls, p'') => (.ok (l ++ ls), p'')

end

/-- Top-level emission (`Program.compile`, `Func.compile`, `Var.compile`,
lines 204-208, 255-256 and 383-387): a function emits its `.user_NAME` label
followed by its body, a variable emits its initializer into its static slot. -/
def TopLevel.compile (env : Env) : TopLevel → Pool → Except Err (List String) × Pool
  | .varDecl name _ value, pool => Var.compile env name value pool
  | .func name _ _ body, pool =>
      match Block.compile env body pool with
      | (.error e, p') => (.error e, p')
      | (.ok ls, p') => (.ok (repr_user_label name :: ls), p')

/-! ### The scope graph and the declaration pass

A `Scope` (`src/parser.py` lines 86-164) holds a parent pointer, the name
table `vars` (a name maps to either a variable's type or a function's
signature), the storage table `addrs`, and the next-slot counter `offset`.
Scopes are kept in an arena (a list); a scope is its index, a parent pointer
is an index of an earlier entry.  The insertion-ordered Python dicts become
association lists, only ever appended to.  (The root scope's register set,
`Scope.regs`, is the `Pool` of the emit model above and plays no role in the
declaration pass.) -/

inductive SymInfo where
  | var (ty : Ty)
  | func (param_types : List Ty) (return_type : Ty)
  deriving DecidableEq, Repr

structure ScopeData where
  parent : Option Nat
  vars : List (String × SymInfo)
  addrs : List (String × Dest)
  offset : Nat
  deriving DecidableEq, Repr

abbrev Arena := List ScopeData

/-- `name in self.vars` -/
def ScopeData.hasName (d : ScopeData) (name : String) : Bool :=
  d.vars.any fun p => p.1 == name

/-- `Scope(parent)` for a non-root scope (lines 87-94): empty tables,
`offset = 0`. -/
def freshScope (parent : Nat) : ScopeData :=
  { parent := some parent, vars := [], addrs := [], offset := 0 }

/-- `Scope.declare_var` (lines 112-125) on scope `t`: reject redefinition;
inside a function the slot is `(r7, offset)`, at the root it is the absolute
static address `STACK_END - 1 - offset`, rejected once it would reach the
heap. -/
def declare_var (t : Nat) (name : String) (ty : Ty) (A : Arena) :
    Except Err Unit × Arena :=
  match A[t]? with
  | Option.none => (.error (.valueError "missing scope"), A)
  | Option.some d =>
      if d.hasName name then
        (.error (.valueError s!"Redefinition of symbol {name}"), A)
      else
        match d.parent with
        | Option.some _ =>
            (.ok (),
             A.set t { d with
               vars := d.vars ++ [(name, .var ty)],
               addrs := d.addrs ++ [(name, .regOffset BASE_POINTER_REG (d.offset : Int))],
               offset := d.offset + 1 })
        | Option.none =>
            if STACK_END - 1 - (d.offset : Int) ≤ HEAP_END then
              (.error (.valueError "Out of static memory"), A)
            else
              (.ok (),
               A.set t { d with
                 vars := d.vars ++ [(name, .var ty)],
                 addrs := d.addrs ++ [(name, .memory (STACK_END - 1 - (d.offset : Int)))],
                 offset := d.offset + 1 })

/-- `Scope.declare_func` (lines 127-134) on scope `t`: only at the root
(parent check first), then the redefinition check, then record the signature. -/
def declare_func (t : Nat) (name : String) (param_types : List Ty)
    (return_type : Ty) (A : Arena) : Except Err Unit × Arena :=
  match A[t]? with
  | Option.none => (.error (.valueError "missing scope"), A)
  | Option.some d =>
      match d.parent with
      | Option.some _ =>
          (.error (.valueError "Functions can only be declared at the top level"), A)
      | Option.none =>
          if d.hasName name then
            (.error (.valueError s!"Redefinition of symbol {name}"), A)
          else
            (.ok (), A.set t { d with vars := d.vars ++ [(name, .func param_types return_type)] })

/-! `declare` on expressions: it only writes `scope` attributes on AST nodes
and never touches the scope graph, so it needs no arena.  `StringLiteral`
defines no `declare`, so `Node.declare` (lines 169-170) raises
`NotImplementedError("StringLiteral")`. -/

mutual

def Expr.declare : Expr → Except Err Unit
  | .intLit _ => .ok ()
  | .strLit _ => .error (.notImplementedError "StringLiteral")
  | .charLit _ => .ok ()
  | .ident _ => .ok ()
  | .call _ args => ExprList.declare args
  | .deref e => Expr.declare e
  | .eqeq l r =>
      match Expr.declare l with
      | .error e => .error e
      | .ok _ => Expr.declare r

def ExprList.declare : ExprList → Except Err Unit
  | .nil => .ok ()
  | .cons a rest =>
      match Expr.declare a with
      | .error e => .error e
      | .ok _ => ExprList.declare rest

end

/-! The declaration pass over statements.  Each node is declared at the scope
index its parent assigned to it, mirroring `node.scope = ...; node.declare()`.
`If.declare` (lines 331-340) declares the condition in the surrounding scope,
then creates a fresh child scope for the then branch, and **only if an else
branch is present** a second fresh child scope for it. -/

mutual

def Stmt.declare (t : Nat) : Stmt → Arena → Except Err Unit × Arena
  | .varDecl name ty value, A =>
      match declare_var t name ty A with
      | (.error e, A') => (.error e, A')
      | (.ok _, A') =>
          match value with
          | Option.none => (.ok (), A')
          | Option.some v => (Expr.declare v, A')
  | .exprStmt e, A => (Expr.declare e, A)
  | .ifStmt i, A => IfNode.declare t i A
  | .blockStmt b, A => Block.declare t b A

def IfNode.declare (s : Nat) : IfNode → Arena → Except Err Unit × Arena
  | .mk cond then_body else_body, A =>
      match Expr.declare cond with
      | .error e => (.error e, A)
      | .ok _ =>
          match Block.declare A.length then_body (A ++ [freshScope s]) with
          | (.error e, A₂) => (.error e, A₂)
          | (.ok _, A₂) => ElsePart.declare s else_body A₂

def ElsePart.declare (s : Nat) : ElsePart → Arena → Except Err Unit × Arena
  | ElsePart.none, A => (.ok (), A)
  | ElsePart.block b, A => Block.declare A.length b (A ++ [freshScope s])
  | ElsePart.elseIf i, A => IfNode.declare A.length i (A ++ [freshScope s])

def Block.declare (t : Nat) : Block → Arena → Except Err Unit × Arena
  | .mk stmts, A => StmtList.declare t stmts A

def StmtList.declare (t : Nat) : StmtList → Arena → Except Err Unit × Arena
  | .nil, A => (.ok (), A)
  | .cons s rest, A =>
      match Stmt.declare t s A with
      | (.error e, A') => (.error e, A')
      | (.ok _, A') => StmtList.declare t rest A'

end

/-- `Param.declare` for each parameter in order (lines 246-248):
`declare_var` into the function body's scope. -/
def params_declare (t : Nat) : List (String × Ty) → Arena → Except Err Unit × Arena
  | [], A => (.ok (), A)
  | (pname, pty) :: rest, A =>
      match declare_var t pname pty A with
      | (.error e, A') => (.error e, A')
      | (.ok _, A') => params_declare t rest A'

/-- `TopLevel.declare` at the root scope (index 0).  `Func.declare`
(lines 241-250): register the signature, create the body scope, declare the
parameters into it, then the body. -/
def TopLevel.declare : TopLevel → Arena → Except Err Unit × Arena
  | .varDecl name ty value, A =>
      (match declare_var 0 name ty A with
       | (.error e, A') => (.error e, A')
       | (.ok _, A') =>
           match value with
           | Option.none => (.ok (), A')
           | Option.some v => (Expr.declare v, A'))
  | .func name params return_type body, A =>
      match declare_func 0 name (params.map Prod.snd) return_type A with
      | (.error e, A') => (.error e, A')
      | (.ok _, A₁) =>
          match params_declare A₁.length params (A₁ ++ [freshScope 0]) with
          | (.error e, A') => (.error e, A')
          | (.ok _, A₃) => Block.declare A₁.length body A₃

/-- `Program.declare` (lines 195-198): each top-level item is declared at the
root scope in order. -/
def Program.declare : List TopLevel → Arena → Except Err Unit × Arena
  | [], A => (.ok (), A)
  | tl :: rest, A =>
      match TopLevel.declare tl A with
      | (.error e, A') => (.error e, A')
      | (.ok _, A') => Program.declare rest A'

/-- The root scope right after `Scope.init_top_level` (lines 96-100): no
parent, the two builtin signatures seeded by `declare_func`, empty storage
table, `offset = 0`.  (The register set it also initializes is the emit
model's initial `Pool` `[2, 3, 4, 5]`.) -/
def initRoot : ScopeData :=
  { parent := Option.none,
    vars := [("write_port", .func [.u8 Option.none, .u8 Option.none] .void),
             ("read_port", .func [.u8 Option.none] (.u8 Option.none))],
    addrs := [],
    offset := 0 }

/-- The scope graph `main.py` starts the declaration pass with: just the
seeded root. -/
def initArena : Arena := [initRoot]

/-- Number of scopes in the arena whose parent is `s` — the "child scopes of
`s`". -/
def childCount (A : Arena) (s : Nat) : Nat :=
  (A.map ScopeData.parent).count (some s)

/-- The number of fresh child scopes an `If` is expected to introduce once the
missing-else case is corrected: one for the then branch, plus one more only
when an else branch is present. -/
def elseScopeCount : IfNode → Nat
  | .mk _ _ ElsePart.none => 1
  | .mk _ _ _ => 2

/-- The root scope's initial free-register set, `set(range(2, 6))`
(line 97). -/
def initPool : Pool := [2, 3, 4, 5]

/-! ### Concrete inputs used by witnesses and counterexamples -/

/-- An environment with no variables in scope. -/
def emptyEnv : Env := fun _ => Option.none

/-- The argument list of the spec's scenario S4 call `add(1, 2)`. -/
def exampleCallArgs : ExprList := .cons (.intLit 1) (.cons (.intLit 2) .nil)

/-- The exact lines `Call.compile` produces for `add(1, 2)` from the initial
pool. -/
def exampleCallLines : List String :=
  ["mov r2, r7", "mov r7, r6", "adi r6, #-3", "cmp r6, #192",
   "jmp less .batc_stack_overflow", "mst r6, #2, r2",
   "ldi r3, #1", "mst r6, #0, r3", "ldi r3, #2", "mst r6, #1, r3",
   "cal .user_add", "mld r7, r6, #2", "adi r6, #3"]

/-- The spec's scenario S6 chain `if x == 0 { } else if x == 1 { } else { }`. -/
def exampleIfChain : Stmt :=
  .ifStmt (.mk (.eqeq (.ident "x") (.intLit 0)) (.mk .nil)
    (.elseIf (.mk (.eqeq (.ident "x") (.intLit 1)) (.mk .nil) (.block (.mk .nil)))))

/-- A then-only `if` with a literal condition and an empty body. -/
def exampleThenOnlyIf : IfNode := .mk (.intLit 1) (.mk .nil) ElsePart.none

/-- An `if` with an else block, otherwise like `exampleThenOnlyIf`. -/
def exampleIfWithElse : IfNode := .mk (.intLit 1) (.mk .nil) (ElsePart.block (.mk .nil))

/-- An environment where `y` resolves to the static slot 191 — what
`Scope.get_var_address` answers at the root for the first static variable. -/
def envY : Env := fun n => if n = "y" then some (.memory 191) else Option.none

/-- The scope graph after declaring `var y: u8` at the root. -/
def c10Arena : Arena := (declare_var 0 "y" (.u8 Option.none) initArena).2

/-- The scope graph after declaring `exampleIfWithElse` at the root. -/
def c7ElseArena : Arena := (IfNode.declare 0 exampleIfWithElse initArena).2

/-- A one-item program, `var x: u8`. -/
def c9Program : List TopLevel := [.varDecl "x" (.u8 Option.none) Option.none]

/-- The scope graph left by the first declaration pass over `c9Program`. -/
def c9Arena : Arena := (Program.declare c9Program initArena).2

/-- How one step of the declaration pass, run at scope `t`, may change the
arena: it only appends scopes, never disturbs the parent pointers of existing
scopes, only extends existing name tables, and every appended scope's parent
is either `t` itself or one of the other appended scopes. -/
def Evolves (t : Nat) (A A' : Arena) : Prop :=
  A.length ≤ A'.length ∧
  (A'.take A.length).map ScopeData.parent = A.map ScopeData.parent ∧
  (∀ d ∈ A'.drop A.length, ∃ p, d.parent = some p ∧ (p = t ∨ A.length ≤ p)) ∧
  (∀ (j : Nat) (dj d'j : ScopeData), A[j]? = some dj → A'[j]? = some d'j →
      ∃ ext, d'j.vars = dj.vars ++ ext)

/-! ## Register-pool preservation

Every `alloc_register` in the source sits inside a `with` block whose
`__exit__` returns the register, so every emit function leaves the free pool
exactly as it found it — on success and on every error exit. -/

theorem compile_into_pool (env : Env) (e : Expr) (d : Dest) (pool : Pool) :
    (compile_into env e d pool).2 = pool := by
  cases e <;> cases d <;> simp only [compile_into] <;> (repeat' split) <;> rfl

theorem compile_args_pool (env : Env) : (args : ExprList) → (i : Nat) → (pool : Pool) →
    (compile_args env args i pool).2 = pool
  | .nil, _, _ => rfl
  | .cons a rest, i, pool => by
      simp only [compile_args]
      split
      · next e p' heq =>
          have h := compile_into_pool env a (.regOffset STACK_POINTER_REG (i : Int)) pool
          rw [heq] at h
          exact h
      · next l p' heq =>
          have h := compile_into_pool env a (.regOffset STACK_POINTER_REG (i : Int)) pool
          rw [heq] at h
          have h2 := compile_args_pool env rest (i + 1) p'
          split
          · next e p'' heq2 =>
              rw [heq2] at h2
              exact h2.trans h
          · next ls p'' heq2 =>
              rw [heq2] at h2
              exact h2.trans h

theorem callCompile_pool (env : Env) (name : String) (args : ExprList) (pool : Pool) :
    (Call.compile env name args pool).2 = pool := by
  unfold Call.compile
  split
  · cases args with
    | nil => rfl
    | cons a0 rest =>
        cases a0 <;> try rfl
        cases pool with
        | nil => rfl
        | cons r prest =>
            cases rest with
            | nil => rfl
            | cons a1 rest2 => simp only; cases a1.valueAttr <;> rfl
  · split
    · cases args with
      | nil => rfl
      | cons a0 rest =>
          cases a0 <;> try rfl
          cases pool with
          | nil => rfl
          | cons r prest =>
              cases rest with
              | nil => rfl
              | cons a1 rest2 => simp only; cases a1.valueAttr <;> rfl
    · cases pool with
      | nil => rfl
      | cons old_base rest =>
          simp only
          cases repr_offset (args.length : Int) with
          | error e => rfl
          | ok offN =>
              simp only
              have h := compile_args_pool env args 0 rest
              split
              · next e p' heq =>
                  rw [heq] at h
                  exact congrArg (List.cons old_base) h
              · next ls p' heq =>
                  rw [heq] at h
                  exact congrArg (List.cons old_base) h

theorem varCompile_pool (env : Env) (name : String) (value : Option Expr) (pool : Pool) :
    (Var.compile env name value pool).2 = pool := by
  unfold Var.compile
  cases value with
  | none => rfl
  | some v =>
      cases env name with
      | none => rfl
      | some addr => exact compile_into_pool env v addr pool

mutual

theorem stmtCompile_pool (env : Env) (s : Stmt) (pool : Pool) :
    (Stmt.compile env s pool).2 = pool := by
  cases s with
  | varDecl name ty value => exact varCompile_pool env name value pool
  | exprStmt e =>
      cases e with
      | call n args => exact callCompile_pool env n args pool
      | intLit _ => rfl
      | strLit _ => rfl
      | charLit _ => rfl
      | ident _ => rfl
      | deref _ => rfl
      | eqeq _ _ => rfl
  | ifStmt i => rfl
  | blockStmt b => exact blockCompile_pool env b pool

theorem blockCompile_pool (env : Env) (b : Block) (pool : Pool) :
    (Block.compile env b pool).2 = pool := by
  cases b with
  | mk stmts => exact stmtListCompile_pool env stmts pool

theorem stmtListCompile_pool (env : Env) (stmts : StmtList) (pool : Pool) :
    (StmtList.compile env stmts pool).2 = pool := by
  cases stmts with
  | nil => rfl
  | cons s rest =>
      simp only [StmtList.compile]
      split
      · next e p' heq =>
          have h := stmtCompile_pool env s pool
          rw [heq] at h
          exact h
      · next l p' heq =>
          have h := stmtCompile_pool env s pool
          rw [heq] at h
          split
          · next e p'' heq2 =>
              have h2 := stmtListCompile_pool env rest p'
              rw [heq2] at h2
              exact h2.trans h
          · next ls p'' heq2 =>
              have h2 := stmtListCompile_pool env rest p'
              rw [heq2] at h2
              exact h2.trans h

end

theorem topLevelCompile_pool (env : Env) (tl : TopLevel) (pool : Pool) :
    (TopLevel.compile env tl pool).2 = pool := by
  cases tl with
  | varDecl name ty value => exact varCompile_pool env name value pool
  | func name params ret body =>
      simp only [TopLevel.compile]
      have h := blockCompile_pool env body pool
      split
      · next e p' heq => rw [heq] at h; exact h
      · next ls p' heq => rw [heq] at h; exact h

/-! ## Claim theorems -/

/-- C8: every register acquired by `alloc_register` during emission is
released on every exit path of its emission region (all acquisitions sit in
`with` blocks, whose `__exit__` runs also on exceptions), so compiling any
top-level item — whatever environment, item and starting pool, and whether it
succeeds or fails — returns the free pool unchanged; in particular from the
initial pool the free-register set is again `{r2, r3, r4, r5}`. -/
theorem c8_register_pool_restored :
    (∀ (env : Env) (tl : TopLevel) (pool : Pool),
        (TopLevel.compile env tl pool).2 = pool) ∧
    (∀ (env : Env) (tl : TopLevel),
        (TopLevel.compile env tl initPool).2 = initPool) :=
  ⟨fun env tl pool => topLevelCompile_pool env tl pool,
   fun env tl => topLevelCompile_pool env tl initPool⟩

/-- C1: whenever `Call.compile` succeeds on a call to a user-defined function
(any name other than the two builtins), the emitted lines are exactly, in this
order: `mov` of the caller's base pointer r7 into the allocated scratch
register, `mov r7, r6`, `adi r6, #-(N+1)`, `cmp r6, #192` (`STACK_END`),
`jmp less .batc_stack_overflow`, `mst` of the scratch register at offset N
from r6, the lowerings of the arguments in source order into `(r6, i)`
starting at i = 0, `cal .user_NAME`, `mld` reloading r7 from offset N off r6,
and `adi r6, #(N+1)`; the register pool is restored. -/
theorem c1_user_call_convention (env : Env) (name : String) (args : ExprList)
    (pool : Pool) (lines : List String) (pool' : Pool)
    (h1 : name ≠ "write_port") (h2 : name ≠ "read_port")
    (h : Call.compile env name args pool = (.ok lines, pool')) :
    ∃ (old_base : Nat) (rest : Pool) (offN : String) (argLines : List String),
      pool = old_base :: rest ∧
      pool' = pool ∧
      repr_offset ((args.length : Nat) : Int) = .ok offN ∧
      compile_args env args 0 rest = (.ok argLines, rest) ∧
      lines =
        [s!"mov {repr_register old_base}, {repr_register BASE_POINTER_REG}",
         s!"mov {repr_register BASE_POINTER_REG}, {repr_register STACK_POINTER_REG}",
         s!"adi {repr_register STACK_POINTER_REG}, {repr_immediate (-((args.length : Int) + 1))}",
         s!"cmp {repr_register STACK_POINTER_REG}, {repr_immediate STACK_END}",
         "jmp less " ++ repr_batc_label "stack_overflow",
         s!"mst {repr_register STACK_POINTER_REG}, {offN}, {repr_register old_base}"] ++
        argLines ++
        [s!"cal {repr_user_label name}",
         s!"mld {repr_register BASE_POINTER_REG}, {repr_register STACK_POINTER_REG}, {offN}",
         s!"adi {repr_register STACK_POINTER_REG}, {repr_immediate ((args.length : Int) + 1)}"] := by
  unfold Call.compile at h
  rw [if_neg h1, if_neg h2] at h
  cases pool with
  | nil => exact absurd h (by simp)
  | cons old_base rest =>
      simp only at h
      split at h
      · exact absurd h (by simp)
      · next offN hoff =>
          split at h
          · exact absurd h (by simp)
          · next argLines p' hargs =>
              have hp' : p' = rest := by
                have hc := compile_args_pool env args 0 rest
                rw [hargs] at hc
                exact hc
              injection h with hfst hsnd
              injection hfst with hlines
              rw [hp'] at hargs hsnd
              exact ⟨old_base, rest, offN, argLines, rfl, hsnd.symm, hoff, hargs,
                     hlines.symm⟩

/-- Witness for C1: the spec's S4 call `add(1, 2)` from the initial pool. -/
theorem c1_user_call_convention_witness :
    ∃ (old_base : Nat) (rest : Pool) (offN : String) (argLines : List String),
      initPool = old_base :: rest ∧
      initPool = initPool ∧
      repr_offset ((exampleCallArgs.length : Nat) : Int) = .ok offN ∧
      compile_args emptyEnv exampleCallArgs 0 rest = (.ok argLines, rest) ∧
      exampleCallLines =
        [s!"mov {repr_register old_base}, {repr_register BASE_POINTER_REG}",
         s!"mov {repr_register BASE_POINTER_REG}, {repr_register STACK_POINTER_REG}",
         s!"adi {repr_register STACK_POINTER_REG}, {repr_immediate (-((exampleCallArgs.length : Int) + 1))}",
         s!"cmp {repr_register STACK_POINTER_REG}, {repr_immediate STACK_END}",
         "jmp less " ++ repr_batc_label "stack_overflow",
         s!"mst {repr_register STACK_POINTER_REG}, {offN}, {repr_register old_base}"] ++
        argLines ++
        ["cal " ++ repr_user_label "add",
         s!"mld {repr_register BASE_POINTER_REG}, {repr_register STACK_POINTER_REG}, {offN}",
         s!"adi {repr_register STACK_POINTER_REG}, {repr_immediate ((exampleCallArgs.length : Int) + 1)}"] :=
  c1_user_call_convention emptyEnv "add" exampleCallArgs initPool exampleCallLines initPool
    (by decide) (by decide) (by rfl)

/-- C2 (refuting theorem): for `write_port(P, V)` with two integer literals the
code emits `ldi R, #P` followed by `pst R, #V` — the **port** is loaded into
the register and the **value** becomes the `pst` immediate, the opposite of
the claimed `ldi R, #V`; `pst R, #P`. -/
theorem c2_write_port_swapped_operands (env : Env) (p v : Int) (r : Nat) (rest : Pool) :
    Call.compile env "write_port" (.cons (.intLit p) (.cons (.intLit v) .nil)) (r :: rest)
      = (.ok [s!"ldi {repr_register r}, {repr_immediate p}",
              s!"pst {repr_register r}, #{toString v}"],
         r :: rest) := rfl

/-- C3 (counterexample): the spec's S6 chain
`if x == 0 { } else if x == 1 { } else { }` does not compile at all — `If` has
no `compile` method, so `Node.compile` raises `NotImplementedError`. -/
theorem c3_counterexample :
    Stmt.compile emptyEnv exampleIfChain initPool
      = (.error (.notImplementedError "If"), initPool) := rfl

/-- C3 (amended): compiling any `if` statement — whatever its condition,
branches and nesting — fails with `NotImplementedError("If")` and emits
nothing, because `If` does not override `Node.compile`; the register pool is
untouched. -/
theorem c3_if_emission_not_implemented (env : Env) (i : IfNode) (pool : Pool) :
    Stmt.compile env (.ifStmt i) pool
      = (.error (.notImplementedError "If"), pool) := rfl

/-- C5 (refuting theorem): compiling `read_port(L)` for an integer literal `L`
never succeeds: after lowering the port literal, the code reads `self.args[1]`
— an out-of-range list access on the one-argument call — so an `IndexError` is
raised (with the allocated register released by the `with` block). -/
theorem c5_read_port_index_error (env : Env) (v : Int) (r : Nat) (rest : Pool) :
    Call.compile env "read_port" (.cons (.intLit v) .nil) (r :: rest)
      = (.error .indexError, r :: rest) := rfl

/-- C6 (refuting theorem): for any integer literal whose value does not fit in
8 bits, `IntLiteral.check` calls `self.warn`, which does not exist anywhere in
the repository, so the check pass aborts with an `AttributeError` instead of
warning, masking and continuing. -/
theorem c6_out_of_range_literal_aborts (v : Int) (h : Int.land v 0xFF ≠ v) :
    IntLiteral.check v = .error (.attributeError "warn") := by
  unfold IntLiteral.check
  rw [if_pos h]

/-- Witness for C6: the literal 300 (`300 & 0xFF = 44 ≠ 300`). -/
theorem c6_out_of_range_literal_aborts_witness :
    Int.land 300 0xFF ≠ 300 ∧
    IntLiteral.check 300 = .error (.attributeError "warn") :=
  ⟨by decide, c6_out_of_range_literal_aborts 300 (by decide)⟩

/-- C10: lowering an identifier into a plain absolute-memory destination
raises `NotImplementedError` (`Ident.compile_into` only handles
register-offset destinations); a root-scope `declare_var` assigns exactly such
an absolute static slot `STACK_END - 1 - offset`; hence emitting a top-level
`var NAME: ty = IDENT` — whose storage resolves to an absolute slot — fails
with `NotImplementedError`, so a static variable can never be initialized from
another variable. -/
theorem c10_static_init_from_ident_fails :
    (∀ (env : Env) (x : String) (a : Int) (pool : Pool),
        compile_into env (.ident x) (.memory a) pool
          = (.error (.notImplementedError "Ident"), pool)) ∧
    (∀ (name : String) (ty : Ty) (A A' : Arena) (d : ScopeData),
        A[0]? = some d → d.parent = Option.none →
        declare_var 0 name ty A = (.ok (), A') →
        ∃ d', A'[0]? = some d' ∧
          (name, Dest.memory (STACK_END - 1 - (d.offset : Int))) ∈ d'.addrs) ∧
    (∀ (env : Env) (name : String) (ty : Ty) (x : String) (a : Int) (pool : Pool),
        env name = some (.memory a) →
        TopLevel.compile env (.varDecl name ty (some (.ident x))) pool
          = (.error (.notImplementedError "Ident"), pool)) := by
  refine ⟨fun env x a pool => rfl, ?_, ?_⟩
  · intro name ty A A' d hget hparent h
    unfold declare_var at h
    rw [hget] at h
    split at h
    · next heq => exact Option.noConfusion heq
    · next d2 heq =>
        have hd : d2 = d := by injection heq with hd; exact hd.symm
        subst hd
        split at h
        · exact absurd h (by simp)
        · split at h
          · next val heqp => rw [hparent] at heqp; exact Option.noConfusion heqp
          · split at h
            · exact absurd h (by simp)
            · injection h with hfst hsnd
              have hlen : 0 < A.length := by
                cases A with
                | nil => simp at hget
                | cons _ _ => simp
              refine ⟨{ parent := d2.parent,
                        vars := d2.vars ++ [(name, SymInfo.var ty)],
                        addrs := d2.addrs ++ [(name, Dest.memory (STACK_END - 1 - (d2.offset : Int)))],
                        offset := d2.offset + 1 }, ?_, ?_⟩
              · rw [← hsnd]
                exact List.getElem?_set_self hlen
              · simp
  · intro env name ty x a pool henv
    simp only [TopLevel.compile, Var.compile, henv]
    rfl

/-- Witness for C10: `var y: u8 = x` at the root; `y` is assigned static slot
191 by `declare_var`, and emission through that absolute slot fails. -/
theorem c10_static_init_from_ident_fails_witness :
    compile_into emptyEnv (.ident "x") (.memory 191) initPool
      = (.error (.notImplementedError "Ident"), initPool) ∧
    (∃ d', c10Arena[0]? = some d' ∧
        ("y", Dest.memory (STACK_END - 1 - (initRoot.offset : Int))) ∈ d'.addrs) ∧
    TopLevel.compile envY (.varDecl "y" (.u8 Option.none) (some (.ident "x"))) initPool
      = (.error (.notImplementedError "Ident"), initPool) :=
  ⟨c10_static_init_from_ident_fails.1 emptyEnv "x" 191 initPool,
   c10_static_init_from_ident_fails.2.1 "y" (.u8 Option.none) initArena c10Arena initRoot
     rfl rfl rfl,
   c10_static_init_from_ident_fails.2.2 envY "y" (.u8 Option.none) "x" 191 initPool rfl⟩

/-! ## The implicit-cast judgment (C4) -/

theorem tyEq_eq_specIdentity (a b : Ty) : Ty.eq a b = specIdentity a b := by
  induction a generalizing b with
  | void => cases b <;> rfl
  | i8 v => cases b <;> rfl
  | u8 v => cases b <;> rfl
  | char => cases b <;> rfl
  | bool => cases b <;> rfl
  | ptr t ih => cases b <;> simp [Ty.eq, specIdentity, ih]

/-- C4: the implicit-cast judgment holds exactly for: identity (same variant,
pointers compared by recursively equal pointee types), and a known-constant
integer-literal type converting to `u8` with value in `[0, 255]` or to `i8`
with value in `[-128, 127]`; in particular `char` does not cast to `u8` and
`bool` casts to neither integer type. -/
theorem c4_implicit_cast_characterization :
    (∀ a b : Ty, can_be_implicitly_casted_to a b = true ↔
        (specIdentity a b = true ∨
          ∃ v, a.knownValue = some v ∧
            ((b.isU8 = true ∧ 0 ≤ v ∧ v ≤ 255) ∨
             (b.isI8 = true ∧ -128 ≤ v ∧ v ≤ 127)))) ∧
    (∀ w : Option Int, can_be_implicitly_casted_to .char (.u8 w) = false) ∧
    (∀ w : Option Int, can_be_implicitly_casted_to .bool (.u8 w) = false ∧
        can_be_implicitly_casted_to .bool (.i8 w) = false) := by
  refine ⟨?_, fun w => rfl, fun w => ⟨rfl, rfl⟩⟩
  intro a b
  cases a with
  | void =>
      simp [can_be_implicitly_casted_to, Ty.knownValue, tyEq_eq_specIdentity]
  | char =>
      simp [can_be_implicitly_casted_to, Ty.knownValue, tyEq_eq_specIdentity]
  | bool =>
      simp [can_be_implicitly_casted_to, Ty.knownValue, tyEq_eq_specIdentity]
  | ptr t =>
      simp [can_be_implicitly_casted_to, Ty.knownValue, tyEq_eq_specIdentity]
  | i8 v =>
      cases v with
      | none =>
          simp [can_be_implicitly_casted_to, Ty.knownValue, tyEq_eq_specIdentity]
      | some x =>
          simp only [can_be_implicitly_casted_to, Ty.knownValue,
            tyEq_eq_specIdentity, Bool.or_eq_true, Bool.and_eq_true,
            decide_eq_true_eq, Option.some.injEq]
          constructor
          · rintro ((⟨⟨hu, h0⟩, h255⟩ | ⟨⟨hi, h128⟩, h127⟩) | hid)
            · exact Or.inr ⟨x, rfl, Or.inl ⟨hu, h0, h255⟩⟩
            · exact Or.inr ⟨x, rfl, Or.inr ⟨hi, h128, h127⟩⟩
            · exact Or.inl hid
          · rintro (hid | ⟨v, hv, (⟨hu, h0, h255⟩ | ⟨hi, h128, h127⟩)⟩)
            · exact Or.inr hid
            · cases hv; exact Or.inl (Or.inl ⟨⟨hu, h0⟩, h255⟩)
            · cases hv; exact Or.inl (Or.inr ⟨⟨hi, h128⟩, h127⟩)
  | u8 v =>
      cases v with
      | none =>
          simp [can_be_implicitly_casted_to, Ty.knownValue, tyEq_eq_specIdentity]
      | some x =>
          simp only [can_be_implicitly_casted_to, Ty.knownValue,
            tyEq_eq_specIdentity, Bool.or_eq_true, Bool.and_eq_true,
            decide_eq_true_eq, Option.some.injEq]
          constructor
          · rintro ((⟨⟨hu, h0⟩, h255⟩ | ⟨⟨hi, h128⟩, h127⟩) | hid)
            · exact Or.inr ⟨x, rfl, Or.inl ⟨hu, h0, h255⟩⟩
            · exact Or.inr ⟨x, rfl, Or.inr ⟨hi, h128, h127⟩⟩
            · exact Or.inl hid
          · rintro (hid | ⟨v, hv, (⟨hu, h0, h255⟩ | ⟨hi, h128, h127⟩)⟩)
            · exact Or.inr hid
            · cases hv; exact Or.inl (Or.inl ⟨⟨hu, h0⟩, h255⟩)
            · cases hv; exact Or.inl (Or.inr ⟨⟨hi, h128⟩, h127⟩)

/-! ## How the declaration pass evolves the scope graph -/

theorem drop_split {α : Type _} (l : List α) {m n : Nat} (hmn : m ≤ n)
    (hn : n ≤ l.length) :
    l.drop m = (l.take n).drop m ++ l.drop n := by
  conv_lhs => rw [← List.take_append_drop n l]
  rw [List.drop_append_of_le_length
        (by rw [List.length_take]; exact Nat.le_min.mpr ⟨hmn, Nat.le_trans hmn hn⟩)]

theorem evolves_rfl (t : Nat) (A : Arena) : Evolves t A A := by
  refine ⟨Nat.le_refl _, by rw [List.take_length], ?_, ?_⟩
  · rw [List.drop_length]
    intro d hd
    exact absurd hd (List.not_mem_nil _)
  · intro j dj d'j h1 h2
    rw [h1] at h2
    injection h2 with hd
    exact ⟨[], by rw [← hd, List.append_nil]⟩

theorem evolves_trans {t t' : Nat} {A A₁ A₂ : Arena}
    (E1 : Evolves t A A₁) (E2 : Evolves t' A₁ A₂)
    (ht' : t' = t ∨ A.length ≤ t') : Evolves t A A₂ := by
  obtain ⟨len1, take1, drop1, vars1⟩ := E1
  obtain ⟨len2, take2, drop2, vars2⟩ := E2
  refine ⟨Nat.le_trans len1 len2, ?_, ?_, ?_⟩
  · calc (A₂.take A.length).map ScopeData.parent
        = ((A₂.take A₁.length).take A.length).map ScopeData.parent := by
          rw [List.take_take, Nat.min_eq_left len1]
      _ = ((A₂.take A₁.length).map ScopeData.parent).take A.length := by
          rw [List.map_take]
      _ = (A₁.map ScopeData.parent).take A.length := by rw [take2]
      _ = (A₁.take A.length).map ScopeData.parent := by rw [List.map_take]
      _ = A.map ScopeData.parent := take1
  · intro d hd
    rw [drop_split A₂ len1 len2] at hd
    rcases List.mem_append.mp hd with hd | hd
    · have hmem : d.parent ∈ ((A₂.take A₁.length).drop A.length).map ScopeData.parent :=
        List.mem_map_of_mem _ hd
      rw [List.map_drop, take2, ← List.map_drop] at hmem
      rcases List.mem_map.mp hmem with ⟨d1, hd1, hpar⟩
      rcases drop1 d1 hd1 with ⟨p, hp, hcond⟩
      exact ⟨p, by rw [← hpar, hp], hcond⟩
    · rcases drop2 d hd with ⟨p, hp, hcond⟩
      rcases hcond with hpt' | hple
      · rcases ht' with hc | hc
        · exact ⟨p, hp, Or.inl (hpt'.trans hc)⟩
        · exact ⟨p, hp, Or.inr (by rw [hpt']; exact hc)⟩
      · exact ⟨p, hp, Or.inr (Nat.le_trans len1 hple)⟩
  · intro j dj d2j h1 h2
    have hj : j < A.length := (List.getElem?_eq_some.mp h1).1
    have hj1 : j < A₁.length := Nat.lt_of_lt_of_le hj len1
    obtain ⟨d1j, h1j⟩ : ∃ x, A₁[j]? = some x := ⟨A₁[j], List.getElem?_eq_getElem hj1⟩
    rcases vars1 j dj d1j h1 h1j with ⟨e1, he1⟩
    rcases vars2 j d1j d2j h1j h2 with ⟨e2, he2⟩
    exact ⟨e1 ++ e2, by rw [he2, he1, List.append_assoc]⟩

theorem evolves_set {t : Nat} {A : Arena} {d d' : ScopeData}
    (hget : A[t]? = some d) (hp : d'.parent = d.parent)
    (hv : ∃ ext, d'.vars = d.vars ++ ext) :
    Evolves t A (A.set t d') := by
  have hlen : t < A.length := (List.getElem?_eq_some.mp hget).1
  refine ⟨by simp, ?_, ?_, ?_⟩
  · rw [List.take_of_length_le (by simp), List.map_set, hp]
    apply List.ext_getElem?
    intro n
    by_cases hn : n = t
    · subst hn
      rw [List.getElem?_set_self (by simpa using hlen), List.getElem?_map, hget]
      rfl
    · rw [List.getElem?_set_ne (Ne.symm hn)]
  · rw [List.drop_of_length_le (by simp)]
    intro d0 hd0
    exact absurd hd0 (List.not_mem_nil _)
  · intro j dj d'j h1 h2
    by_cases hj : j = t
    · subst hj
      rw [hget] at h1
      injection h1 with hdj
      rw [List.getElem?_set_self hlen] at h2
      injection h2 with hd'j
      obtain ⟨ext, hext⟩ := hv
      exact ⟨ext, by rw [← hd'j, hext, hdj]⟩
    · rw [List.getElem?_set_ne (Ne.symm hj), h1] at h2
      injection h2 with hd
      exact ⟨[], by rw [← hd, List.append_nil]⟩

theorem evolves_append_fresh (s : Nat) (A : Arena) :
    Evolves s A (A ++ [freshScope s]) := by
  refine ⟨by simp, ?_, ?_, ?_⟩
  · rw [List.take_left]
  · rw [List.drop_left]
    intro d hd
    have hd' : d = freshScope s := by simpa using hd
    subst hd'
    exact ⟨s, rfl, Or.inl rfl⟩
  · intro j dj d'j h1 h2
    have hj : j < A.length := (List.getElem?_eq_some.mp h1).1
    rw [List.getElem?_append_left hj, h1] at h2
    injection h2 with hd
    exact ⟨[], by rw [← hd, List.append_nil]⟩

theorem declare_var_evolves (t : Nat) (name : String) (ty : Ty) (A : Arena) :
    Evolves t A (declare_var t name ty A).2 := by
  unfold declare_var
  split
  · exact evolves_rfl t A
  · next d heq =>
      split
      · exact evolves_rfl t A
      · split
        · exact evolves_set heq rfl ⟨[(name, .var ty)], rfl⟩
        · split
          · exact evolves_rfl t A
          · exact evolves_set heq rfl ⟨[(name, .var ty)], rfl⟩

theorem declare_func_evolves (t : Nat) (name : String) (ptys : List Ty)
    (ret : Ty) (A : Arena) :
    Evolves t A (declare_func t name ptys ret A).2 := by
  unfold declare_func
  split
  · exact evolves_rfl t A
  · next d heq =>
      split
      · exact evolves_rfl t A
      · split
        · exact evolves_rfl t A
        · exact evolves_set heq rfl ⟨[(name, .func ptys ret)], rfl⟩

mutual

theorem stmtDeclare_evolves (t : Nat) (s : Stmt) (A : Arena) :
    Evolves t A (Stmt.declare t s A).2 := by
  cases s with
  | varDecl name ty value =>
      simp only [Stmt.declare]
      split
      · next e A' heq =>
          have h := declare_var_evolves t name ty A
          rw [heq] at h
          exact h
      · next u A' heq =>
          have h := declare_var_evolves t name ty A
          rw [heq] at h
          cases value with
          | none => exact h
          | some v => exact h
  | exprStmt e => exact evolves_rfl t A
  | ifStmt i => exact ifDeclare_evolves t i A
  | blockStmt b => exact blockDeclare_evolves t b A

theorem ifDeclare_evolves (s : Nat) (i : IfNode) (A : Arena) :
    Evolves s A (IfNode.declare s i A).2 := by
  cases i with
  | mk cond then_body else_body =>
      simp only [IfNode.declare]
      split
      · exact evolves_rfl s A
      · have E1 : Evolves s A (A ++ [freshScope s]) := evolves_append_fresh s A
        split
        · next e A₂ hb =>
            have E2 := blockDeclare_evolves A.length then_body (A ++ [freshScope s])
            rw [hb] at E2
            exact evolves_trans E1 E2 (Or.inr (Nat.le_refl _))
        · next u2 A₂ hb =>
            have E2 := blockDeclare_evolves A.length then_body (A ++ [freshScope s])
            rw [hb] at E2
            have E12 : Evolves s A A₂ :=
              evolves_trans E1 E2 (Or.inr (Nat.le_refl _))
            have E3 := elseDeclare_evolves s else_body A₂
            exact evolves_trans E12 E3 (Or.inl rfl)

theorem elseDeclare_evolves (s : Nat) (els : ElsePart) (A : Arena) :
    Evolves s A (ElsePart.declare s els A).2 := by
  cases els with
  | none => exact evolves_rfl s A
  | block b =>
      have E1 : Evolves s A (A ++ [freshScope s]) := evolves_append_fresh s A
      have E2 := blockDeclare_evolves A.length b (A ++ [freshScope s])
      exact evolves_trans E1 E2 (Or.inr (Nat.le_refl _))
  | elseIf i =>
      have E1 : Evolves s A (A ++ [freshScope s]) := evolves_append_fresh s A
      have E2 := ifDeclare_evolves A.length i (A ++ [freshScope s])
      exact evolves_trans E1 E2 (Or.inr (Nat.le_refl _))

theorem blockDeclare_evolves (t : Nat) (b : Block) (A : Arena) :
    Evolves t A (Block.declare t b A).2 := by
  cases b with
  | mk stmts => exact stmtListDeclare_evolves t stmts A

theorem stmtListDeclare_evolves (t : Nat) (l : StmtList) (A : Arena) :
    Evolves t A (StmtList.declare t l A).2 := by
  cases l with
  | nil => exact evolves_rfl t A
  | cons s rest =>
      simp only [StmtList.declare]
      have E1 := stmtDeclare_evolves t s A
      cases hs : Stmt.declare t s A with
      | mk r A' =>
          rw [hs] at E1
          cases r with
          | error e => exact E1
          | ok u => exact evolves_trans E1 (stmtListDeclare_evolves t rest A') (Or.inl rfl)

end

theorem params_declare_evolves (t : Nat) (ps : List (String × Ty)) (A : Arena) :
    Evolves t A (params_declare t ps A).2 := by
  induction ps generalizing A with
  | nil => exact evolves_rfl t A
  | cons p rest ih =>
      obtain ⟨pname, pty⟩ := p
      simp only [params_declare]
      have E1 := declare_var_evolves t pname pty A
      cases hd : declare_var t pname pty A with
      | mk r A' =>
          rw [hd] at E1
          cases r with
          | error e => exact E1
          | ok u => exact evolves_trans E1 (ih A') (Or.inl rfl)

theorem topLevelDeclare_evolves (tl : TopLevel) (A : Arena) :
    Evolves 0 A (TopLevel.declare tl A).2 := by
  cases tl with
  | varDecl name ty value =>
      simp only [TopLevel.declare]
      have E1 := declare_var_evolves 0 name ty A
      cases hd : declare_var 0 name ty A with
      | mk r A' =>
          rw [hd] at E1
          cases r with
          | error e => exact E1
          | ok u =>
              cases value with
              | none => exact E1
              | some v => exact E1
  | func name params ret body =>
      simp only [TopLevel.declare]
      split
      · next e A' hf =>
          have E1 := declare_func_evolves 0 name (params.map Prod.snd) ret A
          rw [hf] at E1
          exact E1
      · next u A₁ hf =>
          have E1 := declare_func_evolves 0 name (params.map Prod.snd) ret A
          rw [hf] at E1
          have E2 : Evolves 0 A₁ (A₁ ++ [freshScope 0]) :=
            evolves_append_fresh 0 A₁
          have E12 : Evolves 0 A (A₁ ++ [freshScope 0]) :=
            evolves_trans E1 E2 (Or.inl rfl)
          have hA1 : A.length ≤ A₁.length := E1.1
          split
          · next e A' hp =>
              have E3 := params_declare_evolves A₁.length params (A₁ ++ [freshScope 0])
              rw [hp] at E3
              exact evolves_trans E12 E3 (Or.inr hA1)
          · next u2 A₃ hp =>
              have E3 := params_declare_evolves A₁.length params (A₁ ++ [freshScope 0])
              rw [hp] at E3
              have E123 : Evolves 0 A A₃ :=
                evolves_trans E12 E3 (Or.inr hA1)
              have E4 := blockDeclare_evolves A₁.length body A₃
              exact evolves_trans E123 E4 (Or.inr hA1)

theorem programDeclare_evolves (tls : List TopLevel) (A : Arena) :
    Evolves 0 A (Program.declare tls A).2 := by
  induction tls generalizing A with
  | nil => exact evolves_rfl 0 A
  | cons tl rest ih =>
      simp only [Program.declare]
      have E1 := topLevelDeclare_evolves tl A
      cases hd : TopLevel.declare tl A with
      | mk r A' =>
          rw [hd] at E1
          cases r with
          | error e => exact E1
          | ok u => exact evolves_trans E1 (ih A') (Or.inl rfl)

/-! ## Counting child scopes (C7) -/

theorem childCount_append (A B : Arena) (s : Nat) :
    childCount (A ++ B) s = childCount A s + childCount B s := by
  simp [childCount]

theorem childCount_fresh (s : Nat) : childCount [freshScope s] s = 1 := by
  simp [childCount, freshScope, List.count_cons]

theorem childCount_of_evolves {t : Nat} {A A' : Arena} (h : Evolves t A A')
    {s : Nat} (hs : s < A.length) (hst : s ≠ t) :
    childCount A' s = childCount A s := by
  obtain ⟨hlen, htake, hdrop, hv⟩ := h
  have hsplit : childCount A' s
      = childCount (A'.take A.length) s + childCount (A'.drop A.length) s := by
    rw [← childCount_append, List.take_append_drop]
  have h1 : childCount (A'.take A.length) s = childCount A s := by
    unfold childCount
    rw [htake]
  have h2 : childCount (A'.drop A.length) s = 0 := by
    unfold childCount
    rw [List.count_eq_zero]
    intro hmem
    rcases List.mem_map.mp hmem with ⟨d, hd, hpar⟩
    rcases hdrop d hd with ⟨p, hp, hcond⟩
    rw [hp] at hpar
    injection hpar with hps
    rcases hcond with hc | hc
    · exact hst (by rw [← hps, hc])
    · rw [hps] at hc
      exact absurd hc (Nat.not_le.mpr hs)
  rw [hsplit, h1, h2]
  exact Nat.add_zero _

/-- C7 (counterexample): declaring the then-only `if 1 { }` at the root
creates exactly one fresh child scope of the root, not two — `If.declare`
creates the else scope only when an else branch is present. -/
theorem c7_counterexample :
    IfNode.declare 0 exampleThenOnlyIf initArena
      = (.ok (), initArena ++ [freshScope 0]) ∧
    childCount (initArena ++ [freshScope 0]) 0 = 1 ∧
    ¬ childCount (initArena ++ [freshScope 0]) 0 = 2 :=
  ⟨rfl, by decide, by decide⟩

/-- C7 (amended): after a successful `If.declare` at scope `s`, the arena has
gained exactly one fresh child scope of `s` for the then branch, plus exactly
one more only when an else branch (block or else-if) is present — a then-only
`if` introduces one child scope, not two. -/
theorem c7_if_child_scopes (i : IfNode) (s : Nat) (A A' : Arena)
    (hs : s < A.length)
    (h : IfNode.declare s i A = (.ok (), A')) :
    childCount A' s = childCount A s + elseScopeCount i := by
  cases i with
  | mk cond then_body else_body =>
      simp only [IfNode.declare] at h
      split at h
      · exact absurd h (by simp)
      · split at h
        · exact absurd h (by simp)
        · next u2 A₂ hb =>
            have E2 := blockDeclare_evolves A.length then_body (A ++ [freshScope s])
            rw [hb] at E2
            have hs2 : s < (A ++ [freshScope s]).length := by
              simp
              exact Nat.lt_succ_of_lt hs
            have hst2 : s ≠ A.length := Nat.ne_of_lt hs
            have hA2 : childCount A₂ s = childCount A s + 1 := by
              rw [childCount_of_evolves E2 hs2 hst2, childCount_append,
                childCount_fresh]
            have hlenA2 : A.length + 1 ≤ A₂.length := by
              have hl := E2.1
              simpa using hl
            cases else_body with
            | none =>
                simp only [ElsePart.declare] at h
                injection h with hu hA'
                rw [← hA', hA2]
                rfl
            | block b =>
                simp only [ElsePart.declare] at h
                have E4 := blockDeclare_evolves A₂.length b (A₂ ++ [freshScope s])
                rw [h] at E4
                have hs4 : s < (A₂ ++ [freshScope s]).length := by
                  simp
                  omega
                have hst4 : s ≠ A₂.length := by omega
                rw [childCount_of_evolves E4 hs4 hst4, childCount_append,
                  childCount_fresh, hA2]
                rfl
            | elseIf i' =>
                simp only [ElsePart.declare] at h
                have E4 := ifDeclare_evolves A₂.length i' (A₂ ++ [freshScope s])
                rw [h] at E4
                have hs4 : s < (A₂ ++ [freshScope s]).length := by
                  simp
                  omega
                have hst4 : s ≠ A₂.length := by omega
                rw [childCount_of_evolves E4 hs4 hst4, childCount_append,
                  childCount_fresh, hA2]
                rfl

/-- Witness for C7 (amended): an `if` with an else block introduces two child
scopes of the root. -/
theorem c7_if_child_scopes_witness :
    childCount c7ElseArena 0 = childCount initArena 0 + elseScopeCount exampleIfWithElse :=
  c7_if_child_scopes exampleIfWithElse 0 initArena c7ElseArena (by decide) (by rfl)

/-! ## Rerunning the declaration pass (C9) -/

theorem hasName_mono {d d' : ScopeData} (hext : ∃ ext, d'.vars = d.vars ++ ext)
    {n : String} (h : d.hasName n = true) : d'.hasName n = true := by
  obtain ⟨ext, he⟩ := hext
  unfold ScopeData.hasName at h ⊢
  rw [he, List.any_append, h, Bool.true_or]

theorem evolves_hasName {t : Nat} {A A' : Arena} (E : Evolves t A A')
    {j : Nat} {d : ScopeData} (hj : A[j]? = some d) {n : String}
    (h : d.hasName n = true) :
    ∃ d', A'[j]? = some d' ∧ d'.hasName n = true := by
  have hjl : j < A.length := (List.getElem?_eq_some.mp hj).1
  have hjl' : j < A'.length := Nat.lt_of_lt_of_le hjl E.1
  refine ⟨A'[j], List.getElem?_eq_getElem hjl', ?_⟩
  exact hasName_mono (E.2.2.2 j d _ hj (List.getElem?_eq_getElem hjl')) h

theorem declare_var_hasName {t : Nat} {name : String} {ty : Ty} {A A' : Arena}
    (h : declare_var t name ty A = (.ok (), A')) :
    ∃ d', A'[t]? = some d' ∧ d'.hasName name = true := by
  unfold declare_var at h
  split at h
  · exact absurd h (by simp)
  · next d heq =>
      have hlen : t < A.length := (List.getElem?_eq_some.mp heq).1
      split at h
      · exact absurd h (by simp)
      · split at h
        · injection h with hu hA'
          refine ⟨{ parent := d.parent,
                    vars := d.vars ++ [(name, SymInfo.var ty)],
                    addrs := d.addrs ++ [(name, Dest.regOffset BASE_POINTER_REG (d.offset : Int))],
                    offset := d.offset + 1 }, ?_, ?_⟩
          · rw [← hA']
            exact List.getElem?_set_self hlen
          · simp [ScopeData.hasName]
        · split at h
          · exact absurd h (by simp)
          · injection h with hu hA'
            refine ⟨{ parent := d.parent,
                      vars := d.vars ++ [(name, SymInfo.var ty)],
                      addrs := d.addrs ++ [(name, Dest.memory (STACK_END - 1 - (d.offset : Int)))],
                      offset := d.offset + 1 }, ?_, ?_⟩
            · rw [← hA']
              exact List.getElem?_set_self hlen
            · simp [ScopeData.hasName]

theorem declare_func_hasName {t : Nat} {name : String} {ptys : List Ty}
    {ret : Ty} {A A' : Arena}
    (h : declare_func t name ptys ret A = (.ok (), A')) :
    ∃ d', A'[t]? = some d' ∧ d'.hasName name = true := by
  unfold declare_func at h
  split at h
  · exact absurd h (by simp)
  · next d heq =>
      have hlen : t < A.length := (List.getElem?_eq_some.mp heq).1
      split at h
      · exact absurd h (by simp)
      · split at h
        · exact absurd h (by simp)
        · injection h with hu hA'
          refine ⟨{ parent := d.parent,
                    vars := d.vars ++ [(name, SymInfo.func ptys ret)],
                    addrs := d.addrs,
                    offset := d.offset }, ?_, ?_⟩
          · rw [← hA']
            exact List.getElem?_set_self hlen
          · simp [ScopeData.hasName]

theorem topLevelDeclare_hasName (tl : TopLevel) (A A' : Arena)
    (h : TopLevel.declare tl A = (.ok (), A')) :
    ∃ d', A'[0]? = some d' ∧ d'.hasName tl.name = true := by
  cases tl with
  | varDecl name ty value =>
      simp only [TopLevel.declare] at h
      split at h
      · exact absurd h (by simp)
      · next u A₁ hd =>
          have hA' : A₁ = A' := by
            cases value with
            | none => exact congrArg Prod.snd h
            | some v => exact congrArg Prod.snd h
          have hd' : declare_var 0 name ty A = (.ok (), A₁) := by rw [hd]
          rw [← hA']
          exact declare_var_hasName hd'
  | func name params ret body =>
      simp only [TopLevel.declare] at h
      split at h
      · exact absurd h (by simp)
      · next u A₁ hf =>
          have hf' : declare_func 0 name (params.map Prod.snd) ret A = (.ok (), A₁) := by
            rw [hf]
          obtain ⟨d₁, hd₁, hn₁⟩ := declare_func_hasName hf'
          split at h
          · exact absurd h (by simp)
          · next u2 A₃ hp =>
              have E2 : Evolves 0 A₁ (A₁ ++ [freshScope 0]) :=
                evolves_append_fresh 0 A₁
              have E3 := params_declare_evolves A₁.length params (A₁ ++ [freshScope 0])
              rw [hp] at E3
              have E4 := blockDeclare_evolves A₁.length body A₃
              rw [h] at E4
              have E23 : Evolves 0 A₁ A₃ :=
                evolves_trans E2 E3 (Or.inr (Nat.le_refl _))
              have E234 : Evolves 0 A₁ A' :=
                evolves_trans E23 E4 (Or.inr (Nat.le_refl _))
              exact evolves_hasName E234 hd₁ hn₁

theorem declare_var_not_ok {t : Nat} {name : String} {ty : Ty} {G : Arena}
    {d : ScopeData} (hget : G[t]? = some d) (hname : d.hasName name = true) :
    ∀ (u : Unit) (A' : Arena), declare_var t name ty G ≠ (.ok u, A') := by
  intro u A' h
  unfold declare_var at h
  split at h
  · next heq =>
      rw [hget] at heq
      exact Option.noConfusion heq
  · next d2 heq =>
      rw [hget] at heq
      injection heq with hd
      subst hd
      rw [if_pos hname] at h
      exact absurd h (by simp)

theorem declare_func_not_ok {t : Nat} {name : String} {ptys : List Ty}
    {ret : Ty} {G : Arena} {d : ScopeData}
    (hget : G[t]? = some d) (hname : d.hasName name = true) :
    ∀ (u : Unit) (A' : Arena), declare_func t name ptys ret G ≠ (.ok u, A') := by
  intro u A' h
  unfold declare_func at h
  split at h
  · next heq =>
      rw [hget] at heq
      exact Option.noConfusion heq
  · next d2 heq =>
      rw [hget] at heq
      injection heq with hd
      subst hd
      split at h
      · exact absurd h (by simp)
      · rw [if_pos hname] at h
        exact absurd h (by simp)

theorem topLevelDeclare_not_ok {tl : TopLevel} {G : Arena} {d : ScopeData}
    (hget : G[0]? = some d) (hname : d.hasName tl.name = true) :
    ∀ (u : Unit) (A' : Arena), TopLevel.declare tl G ≠ (.ok u, A') := by
  intro u A' h
  cases tl with
  | varDecl name ty value =>
      simp only [TopLevel.declare] at h
      split at h
      · exact absurd h (by simp)
      · next u2 A₁ hd => exact declare_var_not_ok hget hname u2 A₁ hd
  | func name params ret body =>
      simp only [TopLevel.declare] at h
      split at h
      · exact absurd h (by simp)
      · next u2 A₁ hf => exact declare_func_not_ok hget hname u2 A₁ hf

/-- C9: rerunning the declaration pass on the same program over the scope
graph left by a first successful run either raises an error (any nonempty
program: its first top-level item immediately hits the "Redefinition of
symbol" check) or — for the empty program — leaves the scope graph identical. -/
theorem c9_declare_rerun (tls : List TopLevel) (G1 : Arena)
    (h : Program.declare tls initArena = (.ok (), G1)) :
    (∃ e A', Program.declare tls G1 = (.error e, A')) ∨
    Program.declare tls G1 = (.ok (), G1) := by
  cases tls with
  | nil =>
      right
      simp only [Program.declare] at h
      injection h with hu hG
      rw [← hG]
      rfl
  | cons tl rest =>
      left
      simp only [Program.declare] at h
      split at h
      · exact absurd h (by simp)
      · next u A₁ htl =>
          have htl' : TopLevel.declare tl initArena = (.ok (), A₁) := by rw [htl]
          obtain ⟨d₁, hd₁, hn₁⟩ := topLevelDeclare_hasName tl initArena A₁ htl'
          have Erest := programDeclare_evolves rest A₁
          rw [h] at Erest
          obtain ⟨dG, hdG, hnG⟩ := evolves_hasName Erest hd₁ hn₁
          cases hres : TopLevel.declare tl G1 with
          | mk r A'' =>
              cases r with
              | ok u2 => exact absurd hres (topLevelDeclare_not_ok hdG hnG u2 A'')
              | error e =>
                  refine ⟨e, A'', ?_⟩
                  simp only [Program.declare, hres]

/-- Witness for C9: the one-variable program `var x: u8`; its first run
succeeds and the rerun is settled by the theorem. -/
theorem c9_declare_rerun_witness :
    (∃ e A', Program.declare c9Program c9Arena = (.error e, A')) ∨
    Program.declare c9Program c9Arena = (.ok (), c9Arena) :=
  c9_declare_rerun c9Program c9Arena (by rfl)

end Batc
